import Mathlib

namespace Exerbud

/-!
Verification of the Exerbud Conversation & Progress Ledger backend.

The JavaScript sources are shallowly embedded: strings become `List Char`,
timestamps become `Nat` milliseconds since the Unix epoch, database tables
become Lean lists of row structures, and every handler becomes a pure
function from an explicit state.  Each embedded definition keeps the name of
the source function it models.
-/

/-! ## JavaScript string primitives

JS strings are modelled as `List Char`.  `\s` and `String.prototype.trim`
use the ECMA-262 WhiteSpace / LineTerminator sets. -/

/-- Characters matched by the ECMA-262 `\s` class (WhiteSpace and
LineTerminator code points). -/
def jsWhitespaceChars : List Char :=
  ['\t', '\n', Char.ofNat 11, Char.ofNat 12, '\r', ' ',
   Char.ofNat 0x00A0, Char.ofNat 0x1680,
   Char.ofNat 0x2000, Char.ofNat 0x2001, Char.ofNat 0x2002, Char.ofNat 0x2003,
   Char.ofNat 0x2004, Char.ofNat 0x2005, Char.ofNat 0x2006, Char.ofNat 0x2007,
   Char.ofNat 0x2008, Char.ofNat 0x2009, Char.ofNat 0x200A,
   Char.ofNat 0x2028, Char.ofNat 0x2029, Char.ofNat 0x202F,
   Char.ofNat 0x205F, Char.ofNat 0x3000, Char.ofNat 0xFEFF]

/-- Test for membership in the ECMA-262 whitespace set. -/
def isJsWhitespace (c : Char) : Bool :=
  jsWhitespaceChars.contains c

/-- JavaScript `String.prototype.trim`: strip whitespace from both ends. -/
def jsTrim (s : List Char) : List Char :=
  ((s.dropWhile isJsWhitespace).reverse.dropWhile isJsWhitespace).reverse

/-- JavaScript `String.prototype.indexOf`: index of the first occurrence of
`pat` in `s` (`none` models the `-1` result). -/
def jsIndexOf : List Char → List Char → Option Nat
  | pat, s =>
    if pat.isPrefixOf s then some 0
    else
      match s with
      | [] => none
      | _ :: t => (jsIndexOf pat t).map (· + 1)

/-- JavaScript `String.prototype.includes`. -/
def jsIncludes (pat s : List Char) : Bool :=
  (jsIndexOf pat s).isSome

/-- JavaScript `String.prototype.slice(a, b)` for `0 ≤ a ≤ b` (the only way
the embedded code calls it): characters with index in `[a, b)`. -/
def jsSlice (s : List Char) (a b : Nat) : List Char :=
  (s.drop a).take (b - a)

/-- JavaScript `String.prototype.toLowerCase`, restricted to the per-character
simple lowercase mapping (all the phrases the code compares against are
ASCII). -/
def jsToLower (s : List Char) : List Char :=
  s.map Char.toLower

/-- Numeric value of a list of decimal digits, most significant first
(the behaviour of `parseInt(digits, 10)` on a non-empty all-digit string). -/
def digitsToNat (ds : List Char) : Nat :=
  ds.foldl (fun acc c => acc * 10 + (c.toNat - '0'.toNat)) 0

/-- JavaScript truthiness of an optional string (`undefined`/`null`/empty are
falsy). -/
def strTruthy : Option (List Char) → Bool
  | none => false
  | some s => !s.isEmpty

/-! ## Message persistence (`lib/exerbudPersistence.js`, `saveMessagePair`)

`saveMessagePair` writes at most one `role:"user"` and one `role:"assistant"`
message row, each with the content clamped to its first 8000 characters.
The rows pushed into the transaction are returned as a list. -/

/-- One `Message` row as created by `saveMessagePair`. -/
structure PairMessageRow where
  conversationId : List Char
  userId : Option (List Char)
  role : List Char
  content : List Char
  deriving DecidableEq, Repr

/-- Embedding of `saveMessagePair` from `lib/exerbudPersistence.js`: the list
of message rows inserted by the transaction.  A falsy `conversationId` or
`userId` aborts the write; each present message is stored with
`content.slice(0, 8000)`. -/
def saveMessagePair (conversationId userId : Option (List Char))
    (userMessage assistantMessage : Option (List Char)) : List PairMessageRow :=
  if strTruthy conversationId = false ∨ strTruthy userId = false then []
  else
    let cid := conversationId.getD []
    let uid := userId.getD []
    (match userMessage with
     | some um =>
       if um.isEmpty then []
       else [{ conversationId := cid, userId := some uid, role := ['u','s','e','r'],
               content := um.take 8000 }]
     | none => []) ++
    (match assistantMessage with
     | some am =>
       if am.isEmpty then []
       else [{ conversationId := cid, userId := none,
               role := ['a','s','s','i','s','t','a','n','t'],
               content := am.take 8000 }]
     | none => [])

/-! ## Heuristic calorie extraction (`api/exerbud-account.js`,
`extractCaloriesFromText`)

The source matches `text` against the regular expression
`/([0-9]{2,4})\s*(kcal|calories)/i` and returns `parseInt` of the first
captured digit group.  The regex engine is embedded directly for this one
pattern: starting positions are tried left to right; at each position the
greedy `{2,4}` quantifier tries 4, then 3, then 2 digits; `\s*` is greedy
(backtracking it cannot help, because the following literal starts with a
non-whitespace character); the alternation tries `kcal` then `calories`,
case-insensitively. -/

/-- Case-insensitive test that `rest` begins with `kcal` or `calories`. -/
def calorieUnitFollows (rest : List Char) : Bool :=
  let lower := jsToLower (rest.take 8)
  ['k','c','a','l'].isPrefixOf lower ||
    ['c','a','l','o','r','i','e','s'].isPrefixOf lower

/-- One backtracking attempt at a fixed position with a fixed digit count
`len`: `len` digits, then `\s*`, then the unit literal. -/
def calorieTryLen (s : List Char) (len : Nat) : Option (List Char) :=
  if (s.take len).length = len ∧ (s.take len).all Char.isDigit then
    if calorieUnitFollows ((s.drop len).dropWhile isJsWhitespace) then
      some (s.take len)
    else none
  else none

/-- The regex attempt anchored at the current position: greedy `{2,4}`. -/
def calorieMatchAt (s : List Char) : Option (List Char) :=
  match calorieTryLen s 4 with
  | some ds => some ds
  | none =>
    match calorieTryLen s 3 with
    | some ds => some ds
    | none => calorieTryLen s 2

/-- The unanchored regex search: first position (left to right) at which the
anchored attempt succeeds, returning the captured digit group. -/
def execCalorieRegex : List Char → Option (List Char)
  | [] => calorieMatchAt []
  | c :: t =>
    match calorieMatchAt (c :: t) with
    | some ds => some ds
    | none => execCalorieRegex t

/-- Embedding of `extractCaloriesFromText` from `api/exerbud-account.js`.
`parseInt` on the captured all-digit group never yields `NaN`, so the
`Number.isNaN` guard in the source is unreachable. -/
def extractCaloriesFromText (text : List Char) : Option Nat :=
  match execCalorieRegex text with
  | none => none
  | some ds => some (digitsToNat ds)

/-! ## Progress Extractor (`src/unnamed/part_011`,
`extractProgressEventFromReply`)

`JSON.parse` is an external library call; the extractor is parameterised by
a `parse` function returning `none` where `JSON.parse` would throw.  The
fixed markers cannot overlap (no suffix of the start tag is a prefix of the
end tag), so when both are found with `end > start` the end index is at
least `start + startTag.length` and `substring` never swaps its
arguments. -/

/-- The fixed start marker `[[PROGRESS_EVENT_JSON]]`. -/
def PROGRESS_JSON_TAG_START : List Char :=
  "[[PROGRESS_EVENT_JSON]]".toList

/-- The fixed end marker `[[/PROGRESS_EVENT_JSON]]`. -/
def PROGRESS_JSON_TAG_END : List Char :=
  "[[/PROGRESS_EVENT_JSON]]".toList

/-- Embedding of `extractProgressEventFromReply`: locate both markers with
`indexOf`; bail out unchanged when either is missing or out of order;
otherwise parse the trimmed interior (empty interior and parse failure both
leave the event `null`) and strip the marker span from the visible text,
falling back to the original text when the stripped text trims to empty
(the `cleanedText || text` fallback in the source). -/
def extractProgressEventFromReply {α : Type} (parse : List Char → Option α)
    (text : List Char) : List Char × Option α :=
  if text.isEmpty then (text, none)
  else
    match jsIndexOf PROGRESS_JSON_TAG_START text,
          jsIndexOf PROGRESS_JSON_TAG_END text with
    | some s, some e =>
      if e ≤ s then (text, none)
      else
        let jsonRaw := jsTrim (jsSlice text (s + PROGRESS_JSON_TAG_START.length) e)
        let payload := if jsonRaw.isEmpty then none else parse jsonRaw
        let cleaned :=
          jsTrim (text.take s ++ text.drop (e + PROGRESS_JSON_TAG_END.length))
        (if cleaned.isEmpty then text else cleaned, payload)
    | _, _ => (text, none)

/-- The pattern occurs in `s` at index `i`. -/
def occursAt (pat s : List Char) (i : Nat) : Prop :=
  pat.isPrefixOf (s.drop i) = true

/-- `i` is the index of the first occurrence of `pat` in `s` (what
`indexOf` reports). -/
def leftmostOccurrence (pat s : List Char) (i : Nat) : Prop :=
  occursAt pat s i ∧ ∀ j, j < i → ¬ occursAt pat s j

instance (pat s : List Char) (i : Nat) : Decidable (occursAt pat s i) := by
  unfold occursAt
  infer_instance

instance (pat s : List Char) (i : Nat) :
    Decidable (leftmostOccurrence pat s i) := by
  unfold leftmostOccurrence
  infer_instance

/-- The claim-side description of the cleaned text: the stripped text, or
the original reply when stripping leaves nothing. -/
def emptyFallback (orig c : List Char) : List Char :=
  if c.isEmpty then orig else c

/-- A concrete stand-in for `JSON.parse` used by witnesses: accepts exactly
the JSON document `1`. -/
def parseOnlyOne (s : List Char) : Option Nat :=
  if s = ['1'] then some 1 else none

/-- The reply consisting of nothing but a marker block with interior `1`. -/
def bareMarkerReply : List Char :=
  PROGRESS_JSON_TAG_START ++ ['1'] ++ PROGRESS_JSON_TAG_END

/-! ## Database model

The Prisma tables from `prisma/migrations` (see `src/unnamed/part_019` and
the `add_hidden_message` migration), embedded as lists of rows.  Row ids
and timestamps are `Nat`; JSON payload columns keep only the fields the
embedded code paths inspect. -/

/-- A `User` row. -/
structure UserRow where
  id : Nat
  externalId : List Char
  email : Option (List Char)
  createdAt : Nat
  lastSeenAt : Nat
  deriving DecidableEq, Repr

/-- A `Conversation` row (fields the embedded handlers read). -/
structure ConversationRow where
  id : Nat
  userId : Nat
  deriving DecidableEq, Repr

/-- A `Message` row. -/
structure MessageRow where
  id : Nat
  conversationId : Nat
  userId : Option Nat
  role : List Char
  content : List Char
  createdAt : Nat
  deriving DecidableEq, Repr

/-- A `HiddenMessage` row (unique on `(userId, messageId)`). -/
structure HiddenMessageRow where
  userId : Nat
  messageId : Nat
  deriving DecidableEq, Repr

/-- A `PinnedMessage` row (unique on `(userId, messageId)`). -/
structure PinnedMessageRow where
  userId : Nat
  messageId : Nat
  deriving DecidableEq, Repr

/-- An `Upload` row (fields the preview/link path reads). -/
structure UploadRow where
  id : Nat
  userId : Nat
  conversationId : Option Nat
  createdAt : Nat
  deriving DecidableEq, Repr

/-- A `ProgressEvent` row; of the JSON payload only the `calories` field is
kept, the single field any specified read path could consume. -/
structure ProgressEventRow where
  id : Nat
  userId : Nat
  conversationId : Option Nat
  messageId : Option Nat
  type : List Char
  payloadCalories : Option Nat
  createdAt : Nat
  deriving DecidableEq, Repr

/-- The whole database. -/
structure Db where
  users : List UserRow
  conversations : List ConversationRow
  messages : List MessageRow
  hiddenMessages : List HiddenMessageRow
  pinnedMessages : List PinnedMessageRow
  progressEvents : List ProgressEventRow
  deriving DecidableEq, Repr

/-- The `"assistant"` role string. -/
def assistantRole : List Char := "assistant".toList

/-- Milliseconds per UTC calendar day; two non-negative epoch timestamps
have the same `toISOString().slice(0, 10)` day key exactly when they have
the same quotient by this constant. -/
def msPerDay : Nat := 86400000

/-- Milliseconds in the 7-day window. -/
def weekMs : Nat := 7 * 24 * 60 * 60 * 1000

/-! ## Heuristic classifiers (`api/exerbud-account.js`) -/

/-- Embedding of `isMealLikeFromContent`: phrase tests against the
lowercased content, plus the two phrase-and-calorie-regex tests. -/
def isMealLikeFromContent (content : List Char) : Bool :=
  if content.isEmpty then false
  else
    let lower := jsToLower content
    jsIncludes "analysis of the food items in the image".toList lower ||
    jsIncludes "here\x27s the analysis of the food items in the image".toList lower ||
    jsIncludes "here is the analysis of the food items in the image".toList lower ||
    jsIncludes "here\x27s the analysis of this meal".toList lower ||
    jsIncludes "here is the analysis of this meal".toList lower ||
    jsIncludes "here\x27s the analysis of your plate".toList lower ||
    jsIncludes "here is the analysis of your plate".toList lower ||
    jsIncludes "analysis of your plate".toList lower ||
    jsIncludes "food items and approximate portion sizes".toList lower ||
    jsIncludes "approximate portion sizes".toList lower ||
    jsIncludes "analysis of the food item in your image".toList lower ||
    jsIncludes "here\x27s the analysis of the food item in your image".toList lower ||
    jsIncludes "here is the analysis of the food item in your image".toList lower ||
    jsIncludes "analysis of the food item in the image".toList lower ||
    jsIncludes "food identified:".toList lower ||
    (jsIncludes "this meal".toList lower && (execCalorieRegex lower).isSome) ||
    (jsIncludes "plate".toList lower && (execCalorieRegex lower).isSome)

/-- Embedding of `isWorkoutLikeFromContent`. -/
def isWorkoutLikeFromContent (content : List Char) : Bool :=
  if content.isEmpty then false
  else
    let lower := jsToLower content
    jsIncludes "workout plan".toList lower ||
    jsIncludes "training plan".toList lower ||
    jsIncludes "weekly plan".toList lower ||
    (jsIncludes "workout".toList lower && jsIncludes "plan".toList lower) ||
    jsIncludes "routine".toList lower

/-- Embedding of `isBodyScanLikeFromContent`. -/
def isBodyScanLikeFromContent (content : List Char) : Bool :=
  if content.isEmpty then false
  else
    let lower := jsToLower content
    jsIncludes "body scan".toList lower ||
    jsIncludes "progress photos".toList lower ||
    jsIncludes "progress photo".toList lower ||
    jsIncludes "progress picture".toList lower

/-! ## Weekly aggregator (`api/exerbud-account.js`, lines 499–556)

The `forEach` body becomes a fold over the message list; the
`caloriesByDay` object becomes an insertion-ordered association list keyed
by UTC day index. -/

/-- Result shape of the weekly summary. -/
structure WeeklySummary where
  mealsThisWeek : Nat
  bodyScansThisWeek : Nat
  workoutsThisWeek : Nat
  avgCaloriesPerDay : Nat
  deriving DecidableEq, Repr

/-- Mutable state of the `forEach` loop. -/
structure SummaryAcc where
  meals : Nat
  scans : Nat
  workouts : Nat
  buckets : List (Nat × Nat)
  deriving DecidableEq, Repr

/-- `caloriesByDay[dayKey] = (caloriesByDay[dayKey] || 0) + cals`: add into
an existing key or append a new one (JS objects keep string-key insertion
order). -/
def bucketsAdd : List (Nat × Nat) → Nat → Nat → List (Nat × Nat)
  | [], day, cals => [(day, cals)]
  | (d, v) :: rest, day, cals =>
    if d = day then (d, v + cals) :: rest
    else (d, v) :: bucketsAdd rest day cals

/-- One iteration of the `recentMessages.forEach` body. -/
def summaryStep (weekAgo : Nat) (acc : SummaryAcc) (m : MessageRow) :
    SummaryAcc :=
  if m.role ≠ assistantRole then acc
  else if m.createdAt < weekAgo then acc
  else
    let acc1 :=
      if isMealLikeFromContent m.content then
        let withMeal : SummaryAcc := { acc with meals := acc.meals + 1 }
        match extractCaloriesFromText m.content with
        | some cals =>
          { withMeal with
            buckets := bucketsAdd withMeal.buckets (m.createdAt / msPerDay) cals }
        | none => withMeal
      else acc
    let acc2 :=
      if isWorkoutLikeFromContent m.content then
        { acc1 with workouts := acc1.workouts + 1 }
      else acc1
    if isBodyScanLikeFromContent m.content then
      { acc2 with scans := acc2.scans + 1 }
    else acc2

/-- `Math.round(a / b)` for non-negative integers (round half away from
zero; exact for the magnitudes a calorie sum can reach). -/
def jsRoundDiv (a b : Nat) : Nat := (2 * a + b) / (2 * b)

/-- Sum of the per-day bucket totals. -/
def sumValues (b : List (Nat × Nat)) : Nat := (b.map Prod.snd).sum

/-- The bucket keys, in insertion order (`Object.keys`). -/
def keysOf (b : List (Nat × Nat)) : List Nat := b.map Prod.fst

/-- Embedding of the weekly-summary computation: fold the classifier over
the messages, then average the per-day bucket totals over the days that
have a bucket. -/
def computeWeeklySummary (now : Nat) (recentMessages : List MessageRow) :
    WeeklySummary :=
  let weekAgo := now - weekMs
  let acc := recentMessages.foldl (summaryStep weekAgo) ⟨0, 0, 0, []⟩
  let avg :=
    if acc.buckets.isEmpty then 0
    else jsRoundDiv (sumValues acc.buckets) (keysOf acc.buckets).length
  { mealsThisWeek := acc.meals, bodyScansThisWeek := acc.scans,
    workoutsThisWeek := acc.workouts, avgCaloriesPerDay := avg }

/-- Claim-side predicate: an assistant message inside the window whose
content classifies as a meal (these are what `mealsThisWeek` counts). -/
def countedAsMeal (weekAgo : Nat) (m : MessageRow) : Bool :=
  m.role == assistantRole && decide (weekAgo ≤ m.createdAt) &&
    isMealLikeFromContent m.content

/-- Claim-side predicate for `workoutsThisWeek`. -/
def countedAsWorkout (weekAgo : Nat) (m : MessageRow) : Bool :=
  m.role == assistantRole && decide (weekAgo ≤ m.createdAt) &&
    isWorkoutLikeFromContent m.content

/-- Claim-side predicate for `bodyScansThisWeek`. -/
def countedAsScan (weekAgo : Nat) (m : MessageRow) : Bool :=
  m.role == assistantRole && decide (weekAgo ≤ m.createdAt) &&
    isBodyScanLikeFromContent m.content

/-- Claim-side predicate: a counted meal message that also yields a calorie
figure (these feed the per-day buckets). -/
def bucketedMeal (weekAgo : Nat) (m : MessageRow) : Bool :=
  countedAsMeal weekAgo m && (extractCaloriesFromText m.content).isSome

/-- The calorie figure a bucketed meal message contributes. -/
def mealCalories (m : MessageRow) : Nat :=
  (extractCaloriesFromText m.content).getD 0

/-- The UTC day index of a message. -/
def mealDay (m : MessageRow) : Nat := m.createdAt / msPerDay

/-! ## Account-summary read path (`api/exerbud-account.js`, second handler)

The success path is modelled: Prisma initialised, user resolved, and the
`HiddenMessage` table present (`softDeleteSupported = true`). -/

/-- Does `conversationId` resolve to a conversation owned by `uid`
(the `conversation: { userId: user.id }` relation filter)? -/
def conversationOwnedBy (db : Db) (uid : Nat) (conversationId : Nat) : Bool :=
  db.conversations.any fun c => c.id == conversationId && c.userId == uid

/-- Is the message hidden for this user (the `hiddenBy: { none: ... }`
overlay filter)? -/
def isHiddenFor (db : Db) (uid : Nat) (messageId : Nat) : Bool :=
  db.hiddenMessages.any fun h => h.userId == uid && h.messageId == messageId

/-- The `messagesWhere` filter: messages of conversations owned by `uid`,
minus the user's hidden overlay. -/
def messagesWhere (db : Db) (uid : Nat) : List MessageRow :=
  db.messages.filter fun m =>
    conversationOwnedBy db uid m.conversationId && !(isHiddenFor db uid m.id)

/-- `orderBy: { createdAt: "desc" }` as a sorting relation. -/
def createdAtDescRel (a b : MessageRow) : Prop :=
  b.createdAt ≤ a.createdAt

instance : DecidableRel createdAtDescRel := fun a b =>
  inferInstanceAs (Decidable (b.createdAt ≤ a.createdAt))

/-- `findMany(... orderBy createdAt desc, take 250)`; a stable sort stands
in for the store's unspecified tie order. -/
def recentMessagesOf (db : Db) (uid : Nat) : List MessageRow :=
  (List.insertionSort createdAtDescRel (messagesWhere db uid)).take 250

/-- `message.count({ where: messagesWhere })`. -/
def totalMessagesOf (db : Db) (uid : Nat) : Nat :=
  (messagesWhere db uid).length

/-- Response fields of the account-summary handler that the claims
mention. -/
structure AccountSummaryResponse where
  totalMessages : Nat
  recentMessages : List MessageRow
  summary : WeeklySummary
  deriving DecidableEq, Repr

/-- Embedding of the account-summary read path for a resolved user: a pure
read returning the response together with the (untouched) database. -/
def getAccountSummary (db : Db) (uid : Nat) (now : Nat) :
    AccountSummaryResponse × Db :=
  ({ totalMessages := totalMessagesOf db uid,
     recentMessages := recentMessagesOf db uid,
     summary := computeWeeklySummary now (recentMessagesOf db uid) }, db)

/-! ## Message actions (`api/exerbud-account-message.js`, first handler)

`delete` (soft hide), `pin` and `unpin`, after body validation. -/

/-- The three accepted actions (other action strings are rejected as 400
before this point). -/
inductive MessageAction where
  | delete
  | pin
  | unpin
  deriving DecidableEq, Repr

/-- Outcome the handler reports: `ok` plus the failure `reason` (success
responses carry no reason). -/
structure ActionResult where
  ok : Bool
  reason : Option (List Char)
  deriving DecidableEq, Repr

/-- `user.findFirst({ where: { OR: [{externalId}, {email}] } })`, list order
standing in for Prisma's unspecified default order. -/
def findUserByIdentity (db : Db) (externalId email : Option (List Char)) :
    Option UserRow :=
  db.users.find? fun u =>
    (match externalId with
     | some e => u.externalId == e
     | none => false) ||
    (match email with
     | some e => u.email == some e
     | none => false)

/-- `message.findFirst({ where: { id, conversation: { userId } } })`. -/
def findOwnedMessage (db : Db) (uid : Nat) (messageId : Nat) :
    Option MessageRow :=
  db.messages.find? fun m =>
    m.id == messageId && conversationOwnedBy db uid m.conversationId

/-- `hiddenMessage.upsert` keyed on the `(userId, messageId)` unique index:
update `{}` when the row exists, create it otherwise. -/
def hiddenUpsert (db : Db) (uid mid : Nat) : Db :=
  if db.hiddenMessages.any (fun h => h.userId == uid && h.messageId == mid)
  then db
  else { db with hiddenMessages := db.hiddenMessages ++ [⟨uid, mid⟩] }

/-- `pinnedMessage.upsert`, same shape. -/
def pinnedUpsert (db : Db) (uid mid : Nat) : Db :=
  if db.pinnedMessages.any (fun p => p.userId == uid && p.messageId == mid)
  then db
  else { db with pinnedMessages := db.pinnedMessages ++ [⟨uid, mid⟩] }

/-- `pinnedMessage.deleteMany({ where: { userId, messageId } })`. -/
def pinnedDeleteMany (db : Db) (uid mid : Nat) : Db :=
  { db with
    pinnedMessages :=
      db.pinnedMessages.filter fun p =>
        !(p.userId == uid && p.messageId == mid) }

/-- The `"message_not_found"` failure, returned both when no such message
exists and when the message belongs to another user's conversation. -/
def messageNotFoundResult : ActionResult :=
  { ok := false, reason := some "message_not_found".toList }

/-- Embedding of the message-action handler after body validation: resolve
the user, require the message to resolve inside one of the user's
conversations, then apply the action. -/
def applyMessageAction (db : Db) (externalId email : Option (List Char))
    (action : MessageAction) (messageId : Nat) : ActionResult × Db :=
  match findUserByIdentity db externalId email with
  | none => ({ ok := false, reason := some "user_not_found".toList }, db)
  | some user =>
    match findOwnedMessage db user.id messageId with
    | none => (messageNotFoundResult, db)
    | some message =>
      match action with
      | .delete => ({ ok := true, reason := none }, hiddenUpsert db user.id message.id)
      | .pin => ({ ok := true, reason := none }, pinnedUpsert db user.id message.id)
      | .unpin => ({ ok := true, reason := none }, pinnedDeleteMany db user.id message.id)

/-- Number of `HiddenMessage` rows for one `(userId, messageId)` pair. -/
def hiddenPairCount (db : Db) (uid mid : Nat) : Nat :=
  (db.hiddenMessages.filter fun h => h.userId == uid && h.messageId == mid).length

/-- The `HiddenMessage_userId_messageId_key` unique index from the
`add_hidden_message` migration, as a database invariant: no two rows share
a `(userId, messageId)` pair. -/
def hiddenUniqueConstraint (db : Db) : Prop :=
  db.hiddenMessages.Pairwise fun a b =>
    ¬ (a.userId = b.userId ∧ a.messageId = b.messageId)

instance (db : Db) : Decidable (hiddenUniqueConstraint db) := by
  unfold hiddenUniqueConstraint
  infer_instance

/-! ## Upload linker (`src/unnamed/part_006`, lines 345–379) -/

/-- Is `m` the kind of message the first query looks for: an assistant
message of the upload's conversation at or after the upload time? -/
def forwardCandidate (cid t : Nat) (m : MessageRow) : Bool :=
  m.conversationId == cid && m.role == assistantRole && decide (t ≤ m.createdAt)

/-- Is `m` the kind of message the fallback query looks for: any message of
the conversation at or before the upload time? -/
def backwardCandidate (cid t : Nat) (m : MessageRow) : Bool :=
  m.conversationId == cid && decide (m.createdAt ≤ t)

/-- `findFirst(... orderBy createdAt asc)`: the first-seen row of minimal
`createdAt` among those matching `p` (ties are broken by list position,
refining Prisma's unspecified tie order). -/
def findFirstByCreatedAtAsc (msgs : List MessageRow) (p : MessageRow → Bool) :
    Option MessageRow :=
  (msgs.filter p).foldl
    (fun acc m =>
      match acc with
      | none => some m
      | some b => if m.createdAt < b.createdAt then some m else acc)
    none

/-- `findFirst(... orderBy createdAt desc)`: first-seen row of maximal
`createdAt`. -/
def findFirstByCreatedAtDesc (msgs : List MessageRow) (p : MessageRow → Bool) :
    Option MessageRow :=
  (msgs.filter p).foldl
    (fun acc m =>
      match acc with
      | none => some m
      | some b => if b.createdAt < m.createdAt then some m else acc)
    none

/-- Embedding of the upload-to-message link inside `uploadsPreview`:
prefer the earliest assistant message at or after the upload, fall back to
the latest message at or before it (the handler keeps only `msg.id`; the
whole row is returned here so its fields can be stated). -/
def linkNearestMessage (db : Db) (u : UploadRow) : Option MessageRow :=
  match u.conversationId with
  | none => none
  | some cid =>
    match findFirstByCreatedAtAsc db.messages (forwardCandidate cid u.createdAt) with
    | some m => some m
    | none => findFirstByCreatedAtDesc db.messages (backwardCandidate cid u.createdAt)

/-! ## Identity resolver (`src/unnamed/part_011`, `getOrCreateUser`) -/

/-- Distinct `externalId`s across the `User` table (the `User_externalId_key`
unique index). -/
def uniqueExternalIds (users : List UserRow) : Prop :=
  users.Pairwise fun a b => a.externalId ≠ b.externalId

/-- Embedding of `getOrCreateUser`: `null` for a falsy `externalId`,
otherwise `user.upsert` keyed on `externalId` — update bumps `lastSeenAt`
to the current time (and the email when supplied), create starts a fresh
row.  `now` is the clock reading, `freshId` the id the store would assign
to a created row. -/
def getOrCreateUser (db : Db) (externalId : List Char)
    (email : Option (List Char)) (now : Nat) (freshId : Nat) :
    Option UserRow × Db :=
  if externalId.isEmpty then (none, db)
  else
    match db.users.find? (fun u => u.externalId == externalId) with
    | some u =>
      let updated : UserRow :=
        { u with
          lastSeenAt := now,
          email := match email with | some e => some e | none => u.email }
      (some updated,
       { db with
         users := db.users.map fun v =>
           if v.externalId == externalId then updated else v })
    | none =>
      let created : UserRow :=
        { id := freshId, externalId := externalId, email := email,
          createdAt := now, lastSeenAt := now }
      (some created, { db with users := db.users ++ [created] })

/-! ## Concrete instances used by witnesses and counterexamples -/

/-- Four meal-scan replies: 400, 600 and 500 kcal on day 7 and 300 kcal on
day 6. -/
def mealDemoMessages : List MessageRow :=
  [{ id := 1, conversationId := 1, userId := none, role := assistantRole,
     content := "analysis of your plate: 400 kcal".toList,
     createdAt := 7 * msPerDay + 1 },
   { id := 2, conversationId := 1, userId := none, role := assistantRole,
     content := "analysis of your plate: 600 kcal".toList,
     createdAt := 7 * msPerDay + 2 },
   { id := 3, conversationId := 1, userId := none, role := assistantRole,
     content := "analysis of your plate: 500 kcal".toList,
     createdAt := 7 * msPerDay + 3 },
   { id := 4, conversationId := 1, userId := none, role := assistantRole,
     content := "analysis of your plate: 300 kcal".toList,
     createdAt := 6 * msPerDay + 1 }]

/-- A database holding one structured `meal_log` ProgressEvent inside the
window next to one plain assistant message that no heuristic matches. -/
def eventsDemoDb : Db :=
  { users := [{ id := 1, externalId := "shopify:1".toList, email := none,
                createdAt := 0, lastSeenAt := 0 }],
    conversations := [{ id := 1, userId := 1 }],
    messages := [{ id := 10, conversationId := 1, userId := none,
                   role := assistantRole, content := "hello there".toList,
                   createdAt := 7 * msPerDay }],
    hiddenMessages := [],
    pinnedMessages := [],
    progressEvents := [{ id := 1, userId := 1, conversationId := some 1,
                         messageId := some 10, type := "meal_log".toList,
                         payloadCalories := some 500,
                         createdAt := 7 * msPerDay }] }

/-- A message row hidden for user 1 in `hiddenDemoDb`. -/
def hiddenDemoMessage : MessageRow :=
  { id := 2, conversationId := 1, userId := none, role := assistantRole,
    content := "secret".toList, createdAt := 5 }

/-- A database with two messages, the second hidden by its owner. -/
def hiddenDemoDb : Db :=
  { users := [{ id := 1, externalId := "shopify:2".toList, email := none,
                createdAt := 0, lastSeenAt := 0 }],
    conversations := [{ id := 1, userId := 1 }],
    messages := [{ id := 1, conversationId := 1, userId := some 1,
                   role := "user".toList, content := "hi".toList,
                   createdAt := 4 },
                 hiddenDemoMessage],
    hiddenMessages := [{ userId := 1, messageId := 2 }],
    pinnedMessages := [],
    progressEvents := [] }

/-- A database where user 1 (`externalId "a"`) does not own message 5,
which lives in user 2's conversation 9. -/
def actionDemoDb : Db :=
  { users := [{ id := 1, externalId := "a".toList, email := none,
                createdAt := 0, lastSeenAt := 0 },
              { id := 2, externalId := "b".toList, email := none,
                createdAt := 0, lastSeenAt := 0 }],
    conversations := [{ id := 9, userId := 2 }],
    messages := [{ id := 5, conversationId := 9, userId := some 2,
                   role := "user".toList, content := "mine".toList,
                   createdAt := 3 }],
    hiddenMessages := [],
    pinnedMessages := [],
    progressEvents := [] }

/-- Does a `meal_log` ProgressEvent exist for the user inside the 7-day
window (the structured-path trigger described by the specification)? -/
def mealEventsInWindow (db : Db) (uid now : Nat) : List ProgressEventRow :=
  db.progressEvents.filter fun ev =>
    ev.userId == uid && ev.type == "meal_log".toList &&
      decide (now - weekMs ≤ ev.createdAt)

/-- A conversation with a user turn 5 seconds before and an assistant
reply 5 seconds after the upload instant. -/
def uploadDemoDb : Db :=
  { users := [{ id := 1, externalId := "shopify:3".toList, email := none,
                createdAt := 0, lastSeenAt := 0 }],
    conversations := [{ id := 1, userId := 1 }],
    messages := [{ id := 21, conversationId := 1, userId := some 1,
                   role := "user".toList, content := "scan this".toList,
                   createdAt := 95000 },
                 { id := 22, conversationId := 1, userId := none,
                   role := assistantRole,
                   content := "analysis of your plate: 350 kcal".toList,
                   createdAt := 105000 }],
    hiddenMessages := [],
    pinnedMessages := [],
    progressEvents := [] }

/-- The upload sitting between the two messages of `uploadDemoDb`. -/
def uploadDemo : UploadRow :=
  { id := 7, userId := 1, conversationId := some 1, createdAt := 100000 }

/-- A database with no rows at all. -/
def emptyDb : Db :=
  { users := [], conversations := [], messages := [],
    hiddenMessages := [], pinnedMessages := [], progressEvents := [] }

instance (users : List UserRow) : Decidable (uniqueExternalIds users) := by
  unfold uniqueExternalIds
  infer_instance

/-! ## Theorems -/

/-- Claim C10: every row written by `saveMessagePair` carries the first 8000
characters of one of the two inputs, hence at most 8000 characters. -/
theorem saveMessagePair_content_clamped
    (conversationId userId userMessage assistantMessage : Option (List Char))
    (r : PairMessageRow)
    (hr : r ∈ saveMessagePair conversationId userId userMessage assistantMessage) :
    r.content.length ≤ 8000 ∧
      ∃ src, (userMessage = some src ∨ assistantMessage = some src) ∧
        r.content = src.take 8000 := by
  unfold saveMessagePair at hr
  constructor
  · by_cases h : strTruthy conversationId = false ∨ strTruthy userId = false
    · simp [h] at hr
    · simp only [h, if_false] at hr
      rcases List.mem_append.mp hr with hl | hl
      · cases userMessage with
        | none => simp at hl
        | some um =>
          by_cases he : um.isEmpty <;> simp [he] at hl
          subst hl
          simp [Nat.min_le_left]
      · cases assistantMessage with
        | none => simp at hl
        | some am =>
          by_cases he : am.isEmpty <;> simp [he] at hl
          subst hl
          simp [Nat.min_le_left]
  · by_cases h : strTruthy conversationId = false ∨ strTruthy userId = false
    · simp [h] at hr
    · simp only [h, if_false] at hr
      rcases List.mem_append.mp hr with hl | hl
      · cases userMessage with
        | none => simp at hl
        | some um =>
          by_cases he : um.isEmpty <;> simp [he] at hl
          exact ⟨um, Or.inl rfl, by simp [hl]⟩
      · cases assistantMessage with
        | none => simp at hl
        | some am =>
          by_cases he : am.isEmpty <;> simp [he] at hl
          exact ⟨am, Or.inr rfl, by simp [hl]⟩

/-- Witness for C10 at a concrete call of `saveMessagePair`. -/
theorem saveMessagePair_content_clamped_witness :
    ({ conversationId := ['c'], userId := some ['u'], role := ['u','s','e','r'],
       content := ['h','i'] } : PairMessageRow).content.length ≤ 8000 := by
  have h := saveMessagePair_content_clamped (some ['c']) (some ['u'])
    (some ['h','i']) none
    { conversationId := ['c'], userId := some ['u'], role := ['u','s','e','r'],
      content := ['h','i'] }
    (by decide)
  exact h.1

/-- A successful attempt captures the 2 to 4 digits it consumed. -/
theorem calorieTryLen_spec {s : List Char} {len : Nat} {ds : List Char}
    (h : calorieTryLen s len = some ds) :
    ds = s.take len ∧ ds.length = len ∧ ds.all Char.isDigit := by
  unfold calorieTryLen at h
  split at h
  · next hcond =>
    split at h
    · injection h with h
      subst h
      exact ⟨rfl, hcond.1, hcond.2⟩
    · exact absurd h (by simp)
  · exact absurd h (by simp)

/-- A successful anchored match captures between 2 and 4 digits. -/
theorem calorieMatchAt_spec {s ds : List Char}
    (h : calorieMatchAt s = some ds) :
    2 ≤ ds.length ∧ ds.length ≤ 4 ∧ ds.all Char.isDigit := by
  unfold calorieMatchAt at h
  split at h
  · next ds4 h4 =>
    injection h with h
    subst h
    obtain ⟨_, hlen, hdig⟩ := calorieTryLen_spec h4
    exact ⟨by omega, by omega, hdig⟩
  · next h4 =>
    split at h
    · next ds3 h3 =>
      injection h with h
      subst h
      obtain ⟨_, hlen, hdig⟩ := calorieTryLen_spec h3
      exact ⟨by omega, by omega, hdig⟩
    · obtain ⟨_, hlen, hdig⟩ := calorieTryLen_spec h
      exact ⟨by omega, by omega, hdig⟩

/-- Unfolding equation for the search: empty string. -/
theorem execCalorieRegex_nil : execCalorieRegex [] = none := by
  decide

/-- Unfolding equation for the search: one step. -/
theorem execCalorieRegex_cons (c : Char) (t : List Char) :
    execCalorieRegex (c :: t) =
      match calorieMatchAt (c :: t) with
      | some ds => some ds
      | none => execCalorieRegex t := by
  conv_lhs => rw [execCalorieRegex]

/-- The search fails exactly when the anchored attempt fails at every
position. -/
theorem execCalorieRegex_eq_none_iff (s : List Char) :
    execCalorieRegex s = none ↔ ∀ i, calorieMatchAt (s.drop i) = none := by
  induction s with
  | nil =>
    constructor
    · intro _ i
      simp only [List.drop_nil]
      decide
    · intro _
      exact execCalorieRegex_nil
  | cons c t ih =>
    rw [execCalorieRegex_cons]
    constructor
    · intro h i
      rcases hm : calorieMatchAt (c :: t) with _ | ds
      · rw [hm] at h
        cases i with
        | zero => exact hm
        | succ j => exact (ih.mp h) j
      · rw [hm] at h
        exact absurd h (by simp)
    · intro h
      have h0 := h 0
      simp only [List.drop_zero] at h0
      rw [h0]
      exact ih.mpr fun j => h (j + 1)

/-- A successful search returns the capture of the leftmost successful
anchored attempt. -/
theorem execCalorieRegex_eq_some (s ds : List Char)
    (h : execCalorieRegex s = some ds) :
    ∃ i, calorieMatchAt (s.drop i) = some ds ∧
      ∀ j, j < i → calorieMatchAt (s.drop j) = none := by
  induction s with
  | nil => exact absurd h (by simp [execCalorieRegex_nil])
  | cons c t ih =>
    rw [execCalorieRegex_cons] at h
    rcases hm : calorieMatchAt (c :: t) with _ | ds
    · rw [hm] at h
      obtain ⟨i, hi, hlt⟩ := ih h
      refine ⟨i + 1, hi, fun j hj => ?_⟩
      cases j with
      | zero => exact hm
      | succ j => exact hlt j (by omega)
    · rw [hm] at h
      injection h with h
      subst h
      exact ⟨0, hm, fun j hj => absurd hj (by omega)⟩

/-- `foldl` form of the digit-value accumulator. -/
theorem digitsToNat_foldl (a : Nat) (ds : List Char) :
    ds.foldl (fun acc c => acc * 10 + (c.toNat - '0'.toNat)) a =
      a * 10 ^ ds.length + digitsToNat ds := by
  induction ds generalizing a with
  | nil => simp [digitsToNat]
  | cons c t ih =>
    simp only [List.foldl_cons, List.length_cons, digitsToNat]
    rw [ih, ih (0 * 10 + (c.toNat - '0'.toNat))]
    ring

/-- The value of an all-digit group is below `10 ^ length`. -/
theorem digitsToNat_lt (ds : List Char) (h : ds.all Char.isDigit) :
    digitsToNat ds < 10 ^ ds.length := by
  induction ds with
  | nil => simp [digitsToNat]
  | cons c t ih =>
    simp only [List.all_cons, Bool.and_eq_true] at h
    have hc : c.toNat - '0'.toNat ≤ 9 := by
      have hd := h.1
      simp [Char.isDigit] at hd
      obtain ⟨h0, h9⟩ := hd
      have h9n : c.val.toNat ≤ 57 := h9
      have hz : '0'.toNat = 48 := by decide
      show c.val.toNat - '0'.toNat ≤ 9
      omega
    have ht := ih h.2
    show digitsToNat (c :: t) < 10 ^ (t.length + 1)
    unfold digitsToNat
    rw [List.foldl_cons, digitsToNat_foldl]
    have : (0 * 10 + (c.toNat - '0'.toNat)) * 10 ^ t.length ≤ 9 * 10 ^ t.length := by
      apply Nat.mul_le_mul_right
      omega
    calc (0 * 10 + (c.toNat - '0'.toNat)) * 10 ^ t.length + digitsToNat t
        < (0 * 10 + (c.toNat - '0'.toNat)) * 10 ^ t.length + 10 ^ t.length := by omega
      _ ≤ 9 * 10 ^ t.length + 10 ^ t.length := by omega
      _ = 10 ^ (t.length + 1) := by ring

/-- Claim C9, counterexample: on `"00 kcal"` the extractor returns `0`,
which is not between 10 and 9999. -/
theorem extractCaloriesFromText_lower_bound_fails :
    extractCaloriesFromText "00 kcal".toList = some 0 ∧ ¬ (10 : Nat) ≤ 0 := by
  decide

/-- Claim C9 (amended): the extractor returns `none` exactly when the
pattern `2–4 digits, optional whitespace, kcal or calories` matches nowhere;
otherwise it returns the value of the leftmost match, which is at most 9999
and is read from a captured run of 2 to 4 digits (leading zeros can make the
value itself smaller than 10). -/
theorem extractCaloriesFromText_spec (text : List Char) :
    (extractCaloriesFromText text = none ↔
      ∀ i, calorieMatchAt (text.drop i) = none) ∧
    (∀ v, extractCaloriesFromText text = some v →
      v ≤ 9999 ∧
      ∃ i ds, calorieMatchAt (text.drop i) = some ds ∧
        digitsToNat ds = v ∧ 2 ≤ ds.length ∧ ds.length ≤ 4 ∧
        ∀ j, j < i → calorieMatchAt (text.drop j) = none) := by
  constructor
  · rw [← execCalorieRegex_eq_none_iff]
    unfold extractCaloriesFromText
    rcases h : execCalorieRegex text with _ | ds <;> simp [h]
  · intro v hv
    unfold extractCaloriesFromText at hv
    rcases h : execCalorieRegex text with _ | ds
    · rw [h] at hv; exact absurd hv (by simp)
    · rw [h] at hv
      injection hv with hv
      obtain ⟨i, hi, hlt⟩ := execCalorieRegex_eq_some text ds h
      obtain ⟨h2, h4, hdig⟩ := calorieMatchAt_spec hi
      refine ⟨?_, i, ds, hi, hv, h2, h4, hlt⟩
      have := digitsToNat_lt ds hdig
      have hpow : 10 ^ ds.length ≤ 10 ^ 4 := Nat.pow_le_pow_right (by omega) h4
      omega

/-- Witness for the amended C9 at the concrete input `"at 550 kcal today"`. -/
theorem extractCaloriesFromText_spec_witness :
    extractCaloriesFromText "at 550 kcal today".toList = some 550 ∧
      (550 : Nat) ≤ 9999 := by
  refine ⟨by decide, ?_⟩
  exact ((extractCaloriesFromText_spec "at 550 kcal today".toList).2 550
    (by decide)).1

/-- Unfolding equation for `jsIndexOf` on the empty haystack. -/
theorem jsIndexOf_nil (pat : List Char) :
    jsIndexOf pat [] = if pat.isPrefixOf [] then some 0 else none := by
  rw [jsIndexOf]

/-- Unfolding equation for `jsIndexOf` on a cons haystack. -/
theorem jsIndexOf_cons (pat : List Char) (c : Char) (t : List Char) :
    jsIndexOf pat (c :: t) =
      if pat.isPrefixOf (c :: t) then some 0
      else (jsIndexOf pat t).map (· + 1) := by
  rw [jsIndexOf]

/-- Occurrence at a successor index in a cons list is occurrence in the
tail. -/
theorem occursAt_succ_cons (pat : List Char) (c : Char) (t : List Char)
    (j : Nat) : occursAt pat (c :: t) (j + 1) ↔ occursAt pat t j := by
  simp [occursAt]

/-- `indexOf` reports exactly the leftmost occurrence. -/
theorem jsIndexOf_eq_some_iff (pat s : List Char) (i : Nat) :
    jsIndexOf pat s = some i ↔ leftmostOccurrence pat s i := by
  induction s generalizing i with
  | nil =>
    rw [jsIndexOf_nil]
    by_cases hp : pat.isPrefixOf [] = true
    · simp only [hp, if_true]
      constructor
      · intro h
        injection h with h
        subst h
        exact ⟨by simpa [occursAt] using hp, fun j hj => absurd hj (by omega)⟩
      · rintro ⟨hocc, hmin⟩
        rcases Nat.eq_zero_or_pos i with h0 | h0
        · rw [h0]
        · exact absurd (by simpa [occursAt] using hp) (hmin 0 h0)
    · simp only [hp, if_false]
      constructor
      · intro h
        exact absurd h (by simp)
      · rintro ⟨hocc, -⟩
        exact absurd (by simpa [occursAt] using hocc) hp
  | cons c t ih =>
    rw [jsIndexOf_cons]
    by_cases hp : pat.isPrefixOf (c :: t) = true
    · simp only [hp, if_true]
      constructor
      · intro h
        injection h with h
        subst h
        exact ⟨by simpa [occursAt] using hp, fun j hj => absurd hj (by omega)⟩
      · rintro ⟨hocc, hmin⟩
        rcases Nat.eq_zero_or_pos i with h0 | h0
        · rw [h0]
        · exact absurd (by simpa [occursAt] using hp) (hmin 0 h0)
    · simp only [hp, if_false]
      constructor
      · intro h
        rcases hidx : jsIndexOf pat t with _ | i'
        · rw [hidx] at h
          exact absurd h (by simp)
        · rw [hidx] at h
          simp only [Option.map_some'] at h
          injection h with h
          subst h
          obtain ⟨hocc, hmin⟩ := (ih i').mp hidx
          refine ⟨(occursAt_succ_cons pat c t i').mpr hocc, fun j hj => ?_⟩
          cases j with
          | zero => simpa [occursAt] using hp
          | succ j' =>
            intro hc
            exact hmin j' (by omega) ((occursAt_succ_cons pat c t j').mp hc)
      · rintro ⟨hocc, hmin⟩
        cases i with
        | zero => exact absurd (by simpa [occursAt] using hocc) hp
        | succ i' =>
          have ht : leftmostOccurrence pat t i' := by
            refine ⟨(occursAt_succ_cons pat c t i').mp hocc, fun j hj hc => ?_⟩
            exact hmin (j + 1) (by omega) ((occursAt_succ_cons pat c t j).mpr hc)
          rw [(ih i').mpr ht]
          rfl

/-- `indexOf` reports `-1` exactly when the pattern occurs nowhere. -/
theorem jsIndexOf_eq_none_iff (pat s : List Char) :
    jsIndexOf pat s = none ↔ ∀ i, ¬ occursAt pat s i := by
  induction s with
  | nil =>
    rw [jsIndexOf_nil]
    by_cases hp : pat.isPrefixOf [] = true
    · simp only [hp, if_true]
      constructor
      · intro h
        exact absurd h (by simp)
      · intro h
        exact absurd (by simpa [occursAt] using hp) (h 0)
    · simp only [hp, if_false]
      constructor
      · intro _ i
        simpa [occursAt] using hp
      · intro _
        rfl
  | cons c t ih =>
    rw [jsIndexOf_cons]
    by_cases hp : pat.isPrefixOf (c :: t) = true
    · simp only [hp, if_true]
      constructor
      · intro h
        exact absurd h (by simp)
      · intro h
        exact absurd (by simpa [occursAt] using hp) (h 0)
    · simp only [hp, if_false]
      constructor
      · intro h i
        have ht : jsIndexOf pat t = none := by
          rcases hidx : jsIndexOf pat t with _ | i'
          · rfl
          · rw [hidx] at h
            exact absurd h (by simp)
        cases i with
        | zero => simpa [occursAt] using hp
        | succ j => exact fun hc => (ih.mp ht) j ((occursAt_succ_cons pat c t j).mp hc)
      · intro h
        have ht : ∀ j, ¬ occursAt pat t j := fun j hc =>
          h (j + 1) ((occursAt_succ_cons pat c t j).mpr hc)
        rw [ih.mpr ht]
        rfl

/-- A leftmost occurrence of the nonempty start marker forces a nonempty
text. -/
theorem occursAt_start_ne_nil {text : List Char} {i : Nat}
    (h : occursAt PROGRESS_JSON_TAG_START text i) : text.isEmpty = false := by
  cases text with
  | nil =>
    unfold occursAt at h
    simp only [List.drop_nil] at h
    exact absurd h (by decide)
  | cons c t => rfl

/-- Claim C1 (amended): `extractProgressEventFromReply` returns the reply
unchanged with a null event when a marker is missing or the end marker does
not come strictly after the start marker; when the markers are in order it
returns the trimmed text with the marker span stripped — falling back to
the original reply (markers included) when the stripped text trims to
empty — together with the parse result of the trimmed interior (null for an
empty interior or a parse failure). -/
theorem extractProgressEventFromReply_spec {α : Type}
    (parse : List Char → Option α) (text : List Char) :
    (((∀ i, ¬ occursAt PROGRESS_JSON_TAG_START text i) ∨
      (∀ i, ¬ occursAt PROGRESS_JSON_TAG_END text i) ∨
      (∃ s e, leftmostOccurrence PROGRESS_JSON_TAG_START text s ∧
        leftmostOccurrence PROGRESS_JSON_TAG_END text e ∧ e ≤ s)) →
      extractProgressEventFromReply parse text = (text, none)) ∧
    (∀ s e, leftmostOccurrence PROGRESS_JSON_TAG_START text s →
      leftmostOccurrence PROGRESS_JSON_TAG_END text e → s < e →
      extractProgressEventFromReply parse text =
        (emptyFallback text
          (jsTrim (text.take s ++ text.drop (e + PROGRESS_JSON_TAG_END.length))),
         if (jsTrim (jsSlice text (s + PROGRESS_JSON_TAG_START.length) e)).isEmpty
         then none
         else parse (jsTrim (jsSlice text (s + PROGRESS_JSON_TAG_START.length) e)))) := by
  constructor
  · intro h
    unfold extractProgressEventFromReply
    by_cases hemp : text.isEmpty
    · simp [hemp]
    · simp only [hemp, if_false]
      rcases h with h | h | ⟨s, e, hs, he, hle⟩
      · have : jsIndexOf PROGRESS_JSON_TAG_START text = none :=
          (jsIndexOf_eq_none_iff _ _).mpr h
        rw [this]
        rfl
      · have hE : jsIndexOf PROGRESS_JSON_TAG_END text = none :=
          (jsIndexOf_eq_none_iff _ _).mpr h
        rw [hE]
        rcases hS : jsIndexOf PROGRESS_JSON_TAG_START text with _ | s <;> rfl
      · have hS : jsIndexOf PROGRESS_JSON_TAG_START text = some s :=
          (jsIndexOf_eq_some_iff _ _ _).mpr hs
        have hE : jsIndexOf PROGRESS_JSON_TAG_END text = some e :=
          (jsIndexOf_eq_some_iff _ _ _).mpr he
        rw [hS, hE]
        simp only [if_pos hle]
        rfl
  · intro s e hs he hlt
    have hemp : text.isEmpty = false := occursAt_start_ne_nil hs.1
    have hS : jsIndexOf PROGRESS_JSON_TAG_START text = some s :=
      (jsIndexOf_eq_some_iff _ _ _).mpr hs
    have hE : jsIndexOf PROGRESS_JSON_TAG_END text = some e :=
      (jsIndexOf_eq_some_iff _ _ _).mpr he
    unfold extractProgressEventFromReply
    rw [hemp, hS, hE]
    simp only [Bool.false_eq_true, if_false, if_neg (by omega : ¬ e ≤ s)]
    rfl

/-- Claim C1, counterexample: when the reply is exactly one marker block
with valid JSON inside, the code keeps the raw markers in the visible text
(the claim demands the marker span be removed) even though the event is
extracted. -/
theorem extractProgressEventFromReply_bare_block :
    extractProgressEventFromReply parseOnlyOne bareMarkerReply =
      (bareMarkerReply, some 1) ∧
    leftmostOccurrence PROGRESS_JSON_TAG_START bareMarkerReply 0 ∧
    leftmostOccurrence PROGRESS_JSON_TAG_END bareMarkerReply 24 ∧
    jsTrim (bareMarkerReply.take 0 ++
      bareMarkerReply.drop (24 + PROGRESS_JSON_TAG_END.length)) = [] ∧
    bareMarkerReply ≠ [] := by
  refine ⟨by decide, by decide, by decide, by decide, by decide⟩

/-- Witness for the amended C1: a reply with prose around the marker block
comes back with the block stripped and the payload parsed. -/
theorem extractProgressEventFromReply_spec_witness :
    extractProgressEventFromReply parseOnlyOne
        ("Hi ".toList ++ bareMarkerReply ++ " bye".toList) =
      ("Hi  bye".toList, some 1) := by
  have h := (extractProgressEventFromReply_spec parseOnlyOne
    ("Hi ".toList ++ bareMarkerReply ++ " bye".toList)).2 3 27
    (by decide) (by decide) (by decide)
  rw [h]
  decide

/-- Adding into the bucket map adds to the sum of totals. -/
theorem sumValues_bucketsAdd (b : List (Nat × Nat)) (d c : Nat) :
    sumValues (bucketsAdd b d c) = sumValues b + c := by
  induction b with
  | nil => simp [bucketsAdd, sumValues]
  | cons hd t ih =>
    obtain ⟨k, v⟩ := hd
    by_cases h : k = d
    · simp [bucketsAdd, h, sumValues]
      omega
    · simp only [bucketsAdd, if_neg h, sumValues, List.map_cons, List.sum_cons]
      have := ih
      simp only [sumValues] at this
      omega

/-- Adding into the bucket map either keeps the key list or appends the new
key. -/
theorem keysOf_bucketsAdd (b : List (Nat × Nat)) (d c : Nat) :
    keysOf (bucketsAdd b d c) =
      if d ∈ keysOf b then keysOf b else keysOf b ++ [d] := by
  induction b with
  | nil => simp [bucketsAdd, keysOf]
  | cons hd t ih =>
    obtain ⟨k, v⟩ := hd
    by_cases h : k = d
    · subst h
      simp [bucketsAdd, keysOf]
    · simp only [bucketsAdd, if_neg h, keysOf, List.map_cons] at ih ⊢
      rw [ih]
      have hne : ¬ d = k := fun hc => h hc.symm
      by_cases hm : d ∈ List.map Prod.fst t <;> simp [hm, hne]

/-- Membership in the keys after an add. -/
theorem mem_keysOf_bucketsAdd (b : List (Nat × Nat)) (d c x : Nat) :
    x ∈ keysOf (bucketsAdd b d c) ↔ x ∈ keysOf b ∨ x = d := by
  rw [keysOf_bucketsAdd]
  by_cases hm : d ∈ keysOf b
  · simp only [if_pos hm]
    constructor
    · exact Or.inl
    · rintro (h | rfl)
      · exact h
      · exact hm
  · simp [if_neg hm]

/-- Adding into the bucket map keeps the keys deduplicated. -/
theorem nodup_keysOf_bucketsAdd (b : List (Nat × Nat)) (d c : Nat)
    (h : (keysOf b).Nodup) : (keysOf (bucketsAdd b d c)).Nodup := by
  rw [keysOf_bucketsAdd]
  by_cases hm : d ∈ keysOf b
  · simpa [if_pos hm] using h
  · simp only [if_neg hm]
    exact List.Nodup.append h (List.nodup_singleton d)
      (by simpa [List.disjoint_singleton] using hm)

/-- One loop iteration, writtenout by the four claim-side predicates. -/
theorem summaryStep_eq (w : Nat) (acc : SummaryAcc) (m : MessageRow) :
    summaryStep w acc m =
      { meals := acc.meals + (if countedAsMeal w m then 1 else 0),
        scans := acc.scans + (if countedAsScan w m then 1 else 0),
        workouts := acc.workouts + (if countedAsWorkout w m then 1 else 0),
        buckets :=
          if bucketedMeal w m then
            bucketsAdd acc.buckets (mealDay m) (mealCalories m)
          else acc.buckets } := by
  unfold summaryStep bucketedMeal countedAsMeal countedAsScan countedAsWorkout
    mealDay mealCalories
  by_cases hr : m.role = assistantRole
  · by_cases hw : m.createdAt < w
    · have hw' : ¬ w ≤ m.createdAt := by omega
      simp [hr, hw, hw']
    · have hw' : w ≤ m.createdAt := by omega
      by_cases hm : isMealLikeFromContent m.content <;>
        by_cases hwk : isWorkoutLikeFromContent m.content <;>
          by_cases hbs : isBodyScanLikeFromContent m.content <;>
            rcases hx : extractCaloriesFromText m.content with _ | cals <;>
              simp [hr, hw, hw', hm, hwk, hbs, hx]
  · simp [hr]

/-- The loop counts meal-like assistant messages inside the window. -/
theorem summaryFold_meals (w : Nat) (msgs : List MessageRow)
    (acc : SummaryAcc) :
    (msgs.foldl (summaryStep w) acc).meals =
      acc.meals + (msgs.filter (countedAsMeal w)).length := by
  induction msgs generalizing acc with
  | nil => simp
  | cons m t ih =>
    rw [List.foldl_cons, ih, summaryStep_eq]
    by_cases h : countedAsMeal w m
    · simp [h]
      omega
    · simp [h]

/-- The loop counts workout-like assistant messages inside the window. -/
theorem summaryFold_workouts (w : Nat) (msgs : List MessageRow)
    (acc : SummaryAcc) :
    (msgs.foldl (summaryStep w) acc).workouts =
      acc.workouts + (msgs.filter (countedAsWorkout w)).length := by
  induction msgs generalizing acc with
  | nil => simp
  | cons m t ih =>
    rw [List.foldl_cons, ih, summaryStep_eq]
    by_cases h : countedAsWorkout w m
    · simp [h]
      omega
    · simp [h]

/-- The loop counts body-scan-like assistant messages inside the window. -/
theorem summaryFold_scans (w : Nat) (msgs : List MessageRow)
    (acc : SummaryAcc) :
    (msgs.foldl (summaryStep w) acc).scans =
      acc.scans + (msgs.filter (countedAsScan w)).length := by
  induction msgs generalizing acc with
  | nil => simp
  | cons m t ih =>
    rw [List.foldl_cons, ih, summaryStep_eq]
    by_cases h : countedAsScan w m
    · simp [h]
      omega
    · simp [h]

/-- The bucket totals sum to the calories of the bucketed meal messages. -/
theorem summaryFold_sumValues (w : Nat) (msgs : List MessageRow)
    (acc : SummaryAcc) :
    sumValues (msgs.foldl (summaryStep w) acc).buckets =
      sumValues acc.buckets +
        ((msgs.filter (bucketedMeal w)).map mealCalories).sum := by
  induction msgs generalizing acc with
  | nil => simp
  | cons m t ih =>
    rw [List.foldl_cons, ih, summaryStep_eq]
    by_cases h : bucketedMeal w m
    · simp [h, sumValues_bucketsAdd]
      omega
    · simp [h]

/-- The bucket keys are exactly the days of the bucketed meal messages. -/
theorem summaryFold_keys_mem (w : Nat) (msgs : List MessageRow)
    (acc : SummaryAcc) (d : Nat) :
    d ∈ keysOf (msgs.foldl (summaryStep w) acc).buckets ↔
      d ∈ keysOf acc.buckets ∨
        d ∈ (msgs.filter (bucketedMeal w)).map mealDay := by
  induction msgs generalizing acc with
  | nil => simp
  | cons m t ih =>
    rw [List.foldl_cons, ih, summaryStep_eq]
    by_cases h : bucketedMeal w m
    · simp only [h, if_true, List.filter_cons_of_pos h, List.map_cons,
        List.mem_cons, mem_keysOf_bucketsAdd]
      tauto
    · simp [h, List.filter_cons_of_neg]

/-- The bucket keys stay deduplicated through the loop. -/
theorem summaryFold_keys_nodup (w : Nat) (msgs : List MessageRow)
    (acc : SummaryAcc) (h : (keysOf acc.buckets).Nodup) :
    (keysOf (msgs.foldl (summaryStep w) acc).buckets).Nodup := by
  induction msgs generalizing acc with
  | nil => exact h
  | cons m t ih =>
    rw [List.foldl_cons]
    apply ih
    rw [summaryStep_eq]
    by_cases hb : bucketedMeal w m
    · simpa [hb] using nodup_keysOf_bucketsAdd _ _ _ h
    · simpa [hb] using h

/-- Claim C2: when at least one meal message carries a calorie figure, the
weekly average is the sum of the per-day bucket totals divided (with
JavaScript rounding) by the number of distinct days that have a bucket —
not by the window length. -/
theorem avgCaloriesPerDay_spec (now : Nat) (msgs : List MessageRow)
    (h : (msgs.filter (bucketedMeal (now - weekMs))).length ≠ 0) :
    (computeWeeklySummary now msgs).avgCaloriesPerDay =
      jsRoundDiv ((msgs.filter (bucketedMeal (now - weekMs))).map mealCalories).sum
        (((msgs.filter (bucketedMeal (now - weekMs))).map mealDay).dedup.length) := by
  unfold computeWeeklySummary
  set w := now - weekMs with hw
  set accB := (msgs.foldl (summaryStep w) ⟨0, 0, 0, []⟩).buckets with haccB
  have hkeys : ∀ d, d ∈ keysOf accB ↔
      d ∈ (msgs.filter (bucketedMeal w)).map mealDay := by
    intro d
    rw [haccB, summaryFold_keys_mem]
    simp [keysOf]
  have hnodup : (keysOf accB).Nodup := by
    rw [haccB]
    exact summaryFold_keys_nodup w msgs ⟨0, 0, 0, []⟩ (by simp [keysOf])
  have hne : accB.isEmpty = false := by
    rcases List.exists_mem_of_length_pos (Nat.pos_of_ne_zero h) with ⟨m, hm⟩
    have : mealDay m ∈ keysOf accB :=
      (hkeys (mealDay m)).mpr (List.mem_map_of_mem mealDay hm)
    rcases accB with _ | _
    · simp [keysOf] at this
    · rfl
  have hsum : sumValues accB =
      ((msgs.filter (bucketedMeal w)).map mealCalories).sum := by
    rw [haccB, summaryFold_sumValues]
    simp [sumValues]
  have hlen : (keysOf accB).length =
      (((msgs.filter (bucketedMeal w)).map mealDay).dedup).length := by
    have hfin : (keysOf accB).toFinset =
        ((msgs.filter (bucketedMeal w)).map mealDay).toFinset := by
      apply Finset.ext
      intro a
      simp only [List.mem_toFinset]
      exact hkeys a
    calc (keysOf accB).length = (keysOf accB).toFinset.card :=
          (List.toFinset_card_of_nodup hnodup).symm
      _ = ((msgs.filter (bucketedMeal w)).map mealDay).toFinset.card := by
          rw [hfin]
      _ = (((msgs.filter (bucketedMeal w)).map mealDay).dedup).length :=
          List.card_toFinset _
  simp only [hne, Bool.false_eq_true, if_false, hsum, hlen]

/-- Witness for C2: meals of 400, 600 and 500 kcal on one day and 300 kcal
on another average to (1500 + 300) / 2 = 900. -/
theorem avgCaloriesPerDay_spec_witness :
    (computeWeeklySummary (8 * msPerDay) mealDemoMessages).avgCaloriesPerDay
      = 900 := by
  rw [avgCaloriesPerDay_spec (8 * msPerDay) mealDemoMessages (by decide)]
  decide

/-- Claim C6, counterexample: with a `meal_log` ProgressEvent in the window
and one assistant message that no heuristic phrase matches, the summary
still reports zero meals — the aggregator does not read ProgressEvent
rows. -/
theorem weeklySummary_ignores_progress_events :
    (mealEventsInWindow eventsDemoDb 1 (8 * msPerDay)).length = 1 ∧
    ((getAccountSummary eventsDemoDb 1 (8 * msPerDay)).1.summary.mealsThisWeek
      = 0) := by
  constructor
  · decide
  · decide

/-- Claim C6 (amended): the weekly summary is computed purely from the
heuristic classification of the listed messages — its counts are the
phrase-classifier counts, and replacing the entire ProgressEvent table
changes nothing in the response. -/
theorem weeklySummary_heuristic_only (db : Db) (uid now : Nat)
    (evs : List ProgressEventRow) :
    (getAccountSummary { db with progressEvents := evs } uid now).1 =
      (getAccountSummary db uid now).1 ∧
    (getAccountSummary db uid now).1.summary.mealsThisWeek =
      ((recentMessagesOf db uid).filter (countedAsMeal (now - weekMs))).length ∧
    (getAccountSummary db uid now).1.summary.workoutsThisWeek =
      ((recentMessagesOf db uid).filter (countedAsWorkout (now - weekMs))).length ∧
    (getAccountSummary db uid now).1.summary.bodyScansThisWeek =
      ((recentMessagesOf db uid).filter (countedAsScan (now - weekMs))).length := by
  refine ⟨rfl, ?_, ?_, ?_⟩
  · show (computeWeeklySummary now (recentMessagesOf db uid)).mealsThisWeek = _
    simp only [computeWeeklySummary]
    rw [summaryFold_meals]
    simp
  · show (computeWeeklySummary now (recentMessagesOf db uid)).workoutsThisWeek = _
    simp only [computeWeeklySummary]
    rw [summaryFold_workouts]
    simp
  · show (computeWeeklySummary now (recentMessagesOf db uid)).bodyScansThisWeek = _
    simp only [computeWeeklySummary]
    rw [summaryFold_scans]
    simp

/-- Splitting a filtered count by a second test. -/
theorem length_filter_and_not_add {α : Type} (l : List α) (p q : α → Bool) :
    (l.filter fun x => p x && !q x).length +
      (l.filter fun x => p x && q x).length = (l.filter p).length := by
  induction l with
  | nil => simp
  | cons a t ih =>
    by_cases hp : p a <;> by_cases hq : q a <;>
      simp [hp, hq] <;> omega

/-- Claim C3: the account-summary read path never lists or counts a message
hidden for the resolving user, and touches nothing in the database. -/
theorem hiddenMessage_excluded_from_listing (db : Db) (uid now : Nat)
    (m : MessageRow) (hh : isHiddenFor db uid m.id = true) :
    m ∉ (getAccountSummary db uid now).1.recentMessages ∧
    (getAccountSummary db uid now).1.totalMessages +
        (db.messages.filter fun x =>
          conversationOwnedBy db uid x.conversationId &&
            isHiddenFor db uid x.id).length =
      (db.messages.filter fun x =>
        conversationOwnedBy db uid x.conversationId).length ∧
    (getAccountSummary db uid now).2 = db := by
  refine ⟨?_, ?_, rfl⟩
  · intro hmem
    have h1 : m ∈ List.insertionSort createdAtDescRel (messagesWhere db uid) :=
      List.take_subset _ _ hmem
    have h2 : m ∈ messagesWhere db uid :=
      (List.perm_insertionSort createdAtDescRel (messagesWhere db uid)).subset h1
    have h3 := List.of_mem_filter h2
    simp [hh] at h3
  · exact length_filter_and_not_add db.messages
      (fun x => conversationOwnedBy db uid x.conversationId)
      (fun x => isHiddenFor db uid x.id)

/-- Witness for C3: the concrete hidden message is absent from the concrete
listing. -/
theorem hiddenMessage_excluded_from_listing_witness :
    hiddenDemoMessage ∉ (getAccountSummary hiddenDemoDb 1 10).1.recentMessages :=
  (hiddenMessage_excluded_from_listing hiddenDemoDb 1 10 hiddenDemoMessage
    (by decide)).1

/-- The hidden-row-for-a-pair test succeeds exactly when the pair count is
positive. -/
theorem hiddenAny_iff (db : Db) (uid mid : Nat) :
    (db.hiddenMessages.any fun h =>
      h.userId == uid && h.messageId == mid) = true ↔
      1 ≤ hiddenPairCount db uid mid := by
  rw [List.any_eq_true]
  unfold hiddenPairCount
  constructor
  · rintro ⟨x, hx, hpx⟩
    have : x ∈ db.hiddenMessages.filter fun h =>
        h.userId == uid && h.messageId == mid :=
      List.mem_filter.mpr ⟨hx, hpx⟩
    have := List.length_pos.mpr (List.ne_nil_of_mem this)
    omega
  · intro h
    have hne : (db.hiddenMessages.filter fun h =>
        h.userId == uid && h.messageId == mid) ≠ [] := by
      intro hc
      rw [hc] at h
      simp at h
    rcases List.exists_mem_of_ne_nil _ hne with ⟨x, hx⟩
    rcases List.mem_filter.mp hx with ⟨hx1, hx2⟩
    exact ⟨x, hx1, hx2⟩

/-- Pairwise-distinct pairs bound every pair count by one. -/
theorem pairCount_le_one_of_pairwise (l : List HiddenMessageRow)
    (hinv : l.Pairwise fun a b =>
      ¬ (a.userId = b.userId ∧ a.messageId = b.messageId)) (uid mid : Nat) :
    (l.filter fun h => h.userId == uid && h.messageId == mid).length ≤ 1 := by
  induction l with
  | nil => simp
  | cons a t ih =>
    rcases List.pairwise_cons.mp hinv with ⟨ha, ht⟩
    by_cases hpa : (a.userId == uid && a.messageId == mid) = true
    · rw [List.filter_cons, if_pos hpa]
      have : (t.filter fun h => h.userId == uid && h.messageId == mid) = [] := by
        rw [List.filter_eq_nil_iff]
        intro b hb hc
        simp only [Bool.and_eq_true, beq_iff_eq] at hpa hc
        exact ha b hb ⟨hpa.1.trans hc.1.symm, hpa.2.trans hc.2.symm⟩
      rw [this]
      simp
    · rw [List.filter_cons, if_neg hpa]
      exact ih ht

/-- The unique-pair invariant bounds every pair count by one. -/
theorem hiddenPairCount_le_one (db : Db) (hinv : hiddenUniqueConstraint db)
    (uid mid : Nat) : hiddenPairCount db uid mid ≤ 1 :=
  pairCount_le_one_of_pairwise db.hiddenMessages hinv uid mid

/-- `hiddenUpsert` changes only the `hiddenMessages` table. -/
theorem hiddenUpsert_fields (db : Db) (uid mid : Nat) :
    (hiddenUpsert db uid mid).users = db.users ∧
    (hiddenUpsert db uid mid).conversations = db.conversations ∧
    (hiddenUpsert db uid mid).messages = db.messages := by
  unfold hiddenUpsert
  split <;> exact ⟨rfl, rfl, rfl⟩

/-- User lookup depends only on the `users` table. -/
theorem findUserByIdentity_congr (db db' : Db)
    (h : db'.users = db.users) (externalId email : Option (List Char)) :
    findUserByIdentity db' externalId email =
      findUserByIdentity db externalId email := by
  unfold findUserByIdentity
  rw [h]

/-- Owned-message lookup depends only on `messages` and `conversations`. -/
theorem findOwnedMessage_congr (db db' : Db)
    (hm : db'.messages = db.messages)
    (hc : db'.conversations = db.conversations) (uid mid : Nat) :
    findOwnedMessage db' uid mid = findOwnedMessage db uid mid := by
  unfold findOwnedMessage conversationOwnedBy
  rw [hm, hc]

/-- After an upsert the pair is present exactly once (given the unique
index). -/
theorem hiddenPairCount_upsert_self (db : Db) (uid mid : Nat)
    (hinv : hiddenUniqueConstraint db) :
    hiddenPairCount (hiddenUpsert db uid mid) uid mid = 1 := by
  unfold hiddenUpsert
  by_cases hany : (db.hiddenMessages.any fun h =>
      h.userId == uid && h.messageId == mid) = true
  · rw [if_pos hany]
    have h1 := (hiddenAny_iff db uid mid).mp hany
    have h2 := hiddenPairCount_le_one db hinv uid mid
    omega
  · rw [if_neg hany]
    have hnone : ∀ h ∈ db.hiddenMessages,
        ¬ ((h.userId == uid && h.messageId == mid) = true) := by
      intro h hh hc
      exact hany (List.any_eq_true.mpr ⟨h, hh, hc⟩)
    show (List.filter _ (db.hiddenMessages ++ [⟨uid, mid⟩])).length = 1
    rw [List.filter_append, List.filter_eq_nil_iff.mpr hnone]
    simp

/-- Upserting preserves the unique index. -/
theorem hiddenUpsert_keeps_constraint (db : Db) (uid mid : Nat)
    (hinv : hiddenUniqueConstraint db) :
    hiddenUniqueConstraint (hiddenUpsert db uid mid) := by
  unfold hiddenUpsert
  by_cases hany : (db.hiddenMessages.any fun h =>
      h.userId == uid && h.messageId == mid) = true
  · rwa [if_pos hany]
  · rw [if_neg hany]
    unfold hiddenUniqueConstraint at hinv ⊢
    simp only
    rw [List.pairwise_append]
    refine ⟨hinv, List.pairwise_singleton _ _, ?_⟩
    intro a ha b hb
    simp only [List.mem_singleton] at hb
    subst hb
    rintro ⟨h1, h2⟩
    exact hany (List.any_eq_true.mpr ⟨a, ha, by simp [h1, h2]⟩)

/-- Upserting an already-present pair is a no-op. -/
theorem hiddenUpsert_of_present (db : Db) (uid mid : Nat)
    (h : 1 ≤ hiddenPairCount db uid mid) :
    hiddenUpsert db uid mid = db := by
  unfold hiddenUpsert
  rw [if_pos ((hiddenAny_iff db uid mid).mpr h)]

/-- Claim C4: hiding an owned message succeeds, hiding it again succeeds as
a no-op, exactly one overlay row for the pair remains, and the
`(userId, messageId)` unique index is preserved. -/
theorem hide_idempotent (db : Db) (externalId email : Option (List Char))
    (mid : Nat) (u : UserRow) (msg : MessageRow)
    (hu : findUserByIdentity db externalId email = some u)
    (hm : findOwnedMessage db u.id mid = some msg)
    (hinv : hiddenUniqueConstraint db) :
    (applyMessageAction db externalId email .delete mid).1.ok = true ∧
    (applyMessageAction
      (applyMessageAction db externalId email .delete mid).2
      externalId email .delete mid).1.ok = true ∧
    hiddenPairCount
      (applyMessageAction
        (applyMessageAction db externalId email .delete mid).2
        externalId email .delete mid).2 u.id msg.id = 1 ∧
    hiddenUniqueConstraint
      (applyMessageAction
        (applyMessageAction db externalId email .delete mid).2
        externalId email .delete mid).2 ∧
    (applyMessageAction
      (applyMessageAction db externalId email .delete mid).2
      externalId email .delete mid).2.hiddenMessages =
      (applyMessageAction db externalId email .delete mid).2.hiddenMessages := by
  have hstep1 : applyMessageAction db externalId email .delete mid =
      ({ ok := true, reason := none }, hiddenUpsert db u.id msg.id) := by
    unfold applyMessageAction
    simp only [hu, hm]
  obtain ⟨hfu, hfc, hfm⟩ := hiddenUpsert_fields db u.id msg.id
  have hu1 : findUserByIdentity (hiddenUpsert db u.id msg.id) externalId email =
      some u := by
    rw [findUserByIdentity_congr db _ hfu, hu]
  have hm1 : findOwnedMessage (hiddenUpsert db u.id msg.id) u.id mid =
      some msg := by
    rw [findOwnedMessage_congr db _ hfm hfc, hm]
  have hinv1 : hiddenUniqueConstraint (hiddenUpsert db u.id msg.id) :=
    hiddenUpsert_keeps_constraint db u.id msg.id hinv
  have hcount1 : hiddenPairCount (hiddenUpsert db u.id msg.id) u.id msg.id = 1 :=
    hiddenPairCount_upsert_self db u.id msg.id hinv
  have hstep2 : applyMessageAction (hiddenUpsert db u.id msg.id)
      externalId email .delete mid =
      ({ ok := true, reason := none },
        hiddenUpsert (hiddenUpsert db u.id msg.id) u.id msg.id) := by
    unfold applyMessageAction
    simp only [hu1, hm1]
  have hnoop : hiddenUpsert (hiddenUpsert db u.id msg.id) u.id msg.id =
      hiddenUpsert db u.id msg.id :=
    hiddenUpsert_of_present _ u.id msg.id (by omega)
  rw [hstep1]
  simp only
  rw [hstep2]
  simp only
  rw [hnoop]
  exact ⟨trivial, trivial, hcount1, hinv1, rfl⟩

/-- Witness for C4 at a concrete database: both hide calls report success
and one overlay row remains. -/
theorem hide_idempotent_witness :
    (applyMessageAction hiddenDemoDb (some "shopify:2".toList) none
      .delete 1).1.ok = true ∧
    hiddenPairCount
      (applyMessageAction
        (applyMessageAction hiddenDemoDb (some "shopify:2".toList) none
          .delete 1).2
        (some "shopify:2".toList) none .delete 1).2 1 1 = 1 := by
  have h := hide_idempotent hiddenDemoDb (some "shopify:2".toList) none 1
    { id := 1, externalId := "shopify:2".toList, email := none,
      createdAt := 0, lastSeenAt := 0 }
    { id := 1, conversationId := 1, userId := some 1,
      role := "user".toList, content := "hi".toList, createdAt := 4 }
    (by decide) (by decide) (by decide)
  exact ⟨h.1, h.2.2.1⟩

/-- Claim C5, counterexample: acting on an existing message owned by
another user yields exactly the same `message_not_found` failure as acting
on a message that does not exist at all — no distinct permission error. -/
theorem ownership_violation_not_distinct :
    (applyMessageAction actionDemoDb (some "a".toList) none .delete 5).1 =
      messageNotFoundResult ∧
    (applyMessageAction actionDemoDb (some "a".toList) none .delete 777).1 =
      messageNotFoundResult ∧
    messageNotFoundResult.ok = false ∧
    (∃ m ∈ actionDemoDb.messages, m.id = 5) ∧
    (∀ m ∈ actionDemoDb.messages, m.id ≠ 777) := by
  refine ⟨by decide, by decide, by decide, by decide, by decide⟩

/-- Claim C5 (amended): when every message with the targeted id lives in a
conversation the resolving user does not own, each of the three actions is
rejected with the same `message_not_found` failure used for nonexistent
messages (`ok: false`, never success) and the database is untouched. -/
theorem ownership_violation_spec (db : Db)
    (externalId email : Option (List Char)) (action : MessageAction)
    (mid : Nat) (u : UserRow)
    (hu : findUserByIdentity db externalId email = some u)
    (hnot : ∀ m ∈ db.messages, m.id = mid →
      conversationOwnedBy db u.id m.conversationId = false) :
    applyMessageAction db externalId email action mid =
      (messageNotFoundResult, db) := by
  unfold applyMessageAction
  have hfind : findOwnedMessage db u.id mid = none := by
    unfold findOwnedMessage
    rw [List.find?_eq_none]
    intro m hm hc
    simp only [Bool.and_eq_true, beq_iff_eq] at hc
    rw [hnot m hm hc.1] at hc
    exact absurd hc.2 (by simp)
  simp only [hu, hfind]

/-- Witness for the amended C5 at the concrete database. -/
theorem ownership_violation_spec_witness :
    applyMessageAction actionDemoDb (some "a".toList) none .pin 5 =
      (messageNotFoundResult, actionDemoDb) :=
  ownership_violation_spec actionDemoDb (some "a".toList) none .pin 5
    { id := 1, externalId := "a".toList, email := none,
      createdAt := 0, lastSeenAt := 0 }
    (by decide) (by decide)

/-- Folding the minimum-picker from a seed yields the least `createdAt`
among the seed and the list, first-seen winning ties. -/
theorem foldlMinCreatedAt_spec (l : List MessageRow) (b : MessageRow) :
    ∃ r, l.foldl
        (fun acc m =>
          match acc with
          | none => some m
          | some c => if m.createdAt < c.createdAt then some m else acc)
        (some b) = some r ∧
      (r = b ∨ r ∈ l) ∧ r.createdAt ≤ b.createdAt ∧
      ∀ m ∈ l, r.createdAt ≤ m.createdAt := by
  induction l generalizing b with
  | nil => exact ⟨b, rfl, Or.inl rfl, le_refl _, by simp⟩
  | cons a t ih =>
    by_cases h : a.createdAt < b.createdAt
    · obtain ⟨r, hr, hmem, hle, hall⟩ := ih a
      refine ⟨r, ?_, ?_, ?_, ?_⟩
      · simpa [h] using hr
      · rcases hmem with rfl | hm
        · exact Or.inr (List.mem_cons_self _ _)
        · exact Or.inr (List.mem_cons_of_mem _ hm)
      · omega
      · intro m hm
        rcases List.mem_cons.mp hm with rfl | hm'
        · exact hle
        · exact hall m hm'
    · obtain ⟨r, hr, hmem, hle, hall⟩ := ih b
      refine ⟨r, ?_, ?_, hle, ?_⟩
      · simpa [h] using hr
      · rcases hmem with rfl | hm
        · exact Or.inl rfl
        · exact Or.inr (List.mem_cons_of_mem _ hm)
      · intro m hm
        rcases List.mem_cons.mp hm with rfl | hm'
        · omega
        · exact hall m hm'

/-- Folding the maximum-picker from a seed yields the greatest `createdAt`
among the seed and the list, first-seen winning ties. -/
theorem foldlMaxCreatedAt_spec (l : List MessageRow) (b : MessageRow) :
    ∃ r, l.foldl
        (fun acc m =>
          match acc with
          | none => some m
          | some c => if c.createdAt < m.createdAt then some m else acc)
        (some b) = some r ∧
      (r = b ∨ r ∈ l) ∧ b.createdAt ≤ r.createdAt ∧
      ∀ m ∈ l, m.createdAt ≤ r.createdAt := by
  induction l generalizing b with
  | nil => exact ⟨b, rfl, Or.inl rfl, le_refl _, by simp⟩
  | cons a t ih =>
    by_cases h : b.createdAt < a.createdAt
    · obtain ⟨r, hr, hmem, hle, hall⟩ := ih a
      refine ⟨r, ?_, ?_, ?_, ?_⟩
      · simpa [h] using hr
      · rcases hmem with rfl | hm
        · exact Or.inr (List.mem_cons_self _ _)
        · exact Or.inr (List.mem_cons_of_mem _ hm)
      · omega
      · intro m hm
        rcases List.mem_cons.mp hm with rfl | hm'
        · exact hle
        · exact hall m hm'
    · obtain ⟨r, hr, hmem, hle, hall⟩ := ih b
      refine ⟨r, ?_, ?_, hle, ?_⟩
      · simpa [h] using hr
      · rcases hmem with rfl | hm
        · exact Or.inl rfl
        · exact Or.inr (List.mem_cons_of_mem _ hm)
      · intro m hm
        rcases List.mem_cons.mp hm with rfl | hm'
        · omega
        · exact hall m hm'

/-- The ascending `findFirst` returns a minimal matching row, or `none`
exactly when nothing matches. -/
theorem findFirstByCreatedAtAsc_spec (msgs : List MessageRow)
    (p : MessageRow → Bool) :
    (findFirstByCreatedAtAsc msgs p = none ↔ msgs.filter p = []) ∧
    (∀ r, findFirstByCreatedAtAsc msgs p = some r →
      r ∈ msgs ∧ p r = true ∧
        ∀ m ∈ msgs, p m = true → r.createdAt ≤ m.createdAt) := by
  unfold findFirstByCreatedAtAsc
  rcases hf : msgs.filter p with _ | ⟨a, t⟩
  · refine ⟨by simp, ?_⟩
    intro r hr
    exact absurd hr (by simp)
  · obtain ⟨r, hr, hmem, hle, hall⟩ := foldlMinCreatedAt_spec t a
    rw [List.foldl_cons]
    simp only []
    rw [hr]
    constructor
    · constructor
      · intro h
        exact absurd h (by simp)
      · intro h
        exact absurd h (by simp)
    · intro r' hr'
      injection hr' with hr'
      subst hr'
      have hrf : r ∈ msgs.filter p := by
        rw [hf]
        rcases hmem with rfl | hm
        · exact List.mem_cons_self _ _
        · exact List.mem_cons_of_mem _ hm
      refine ⟨List.mem_of_mem_filter hrf, List.of_mem_filter hrf, ?_⟩
      intro m hm hpm
      have : m ∈ msgs.filter p := List.mem_filter.mpr ⟨hm, hpm⟩
      rw [hf] at this
      rcases List.mem_cons.mp this with rfl | hm'
      · exact hle
      · exact hall m hm'

/-- The descending `findFirst` returns a maximal matching row, or `none`
exactly when nothing matches. -/
theorem findFirstByCreatedAtDesc_spec (msgs : List MessageRow)
    (p : MessageRow → Bool) :
    (findFirstByCreatedAtDesc msgs p = none ↔ msgs.filter p = []) ∧
    (∀ r, findFirstByCreatedAtDesc msgs p = some r →
      r ∈ msgs ∧ p r = true ∧
        ∀ m ∈ msgs, p m = true → m.createdAt ≤ r.createdAt) := by
  unfold findFirstByCreatedAtDesc
  rcases hf : msgs.filter p with _ | ⟨a, t⟩
  · refine ⟨by simp, ?_⟩
    intro r hr
    exact absurd hr (by simp)
  · obtain ⟨r, hr, hmem, hle, hall⟩ := foldlMaxCreatedAt_spec t a
    rw [List.foldl_cons]
    simp only []
    rw [hr]
    constructor
    · constructor
      · intro h
        exact absurd h (by simp)
      · intro h
        exact absurd h (by simp)
    · intro r' hr'
      injection hr' with hr'
      subst hr'
      have hrf : r ∈ msgs.filter p := by
        rw [hf]
        rcases hmem with rfl | hm
        · exact List.mem_cons_self _ _
        · exact List.mem_cons_of_mem _ hm
      refine ⟨List.mem_of_mem_filter hrf, List.of_mem_filter hrf, ?_⟩
      intro m hm hpm
      have : m ∈ msgs.filter p := List.mem_filter.mpr ⟨hm, hpm⟩
      rw [hf] at this
      rcases List.mem_cons.mp this with rfl | hm'
      · exact hle
      · exact hall m hm'

/-- Claim C7: for an upload with a conversation, the linker returns the
earliest assistant message of that conversation at or after the upload
time; failing that, the latest message (any role) at or before it; failing
both, nothing. -/
theorem linkNearestMessage_spec (db : Db) (u : UploadRow) (cid : Nat)
    (hc : u.conversationId = some cid) :
    ((∃ m ∈ db.messages, forwardCandidate cid u.createdAt m = true) →
      ∃ r, linkNearestMessage db u = some r ∧ r ∈ db.messages ∧
        forwardCandidate cid u.createdAt r = true ∧
        ∀ m ∈ db.messages, forwardCandidate cid u.createdAt m = true →
          r.createdAt ≤ m.createdAt) ∧
    ((∀ m ∈ db.messages, forwardCandidate cid u.createdAt m = false) →
      (∃ m ∈ db.messages, backwardCandidate cid u.createdAt m = true) →
      ∃ r, linkNearestMessage db u = some r ∧ r ∈ db.messages ∧
        backwardCandidate cid u.createdAt r = true ∧
        ∀ m ∈ db.messages, backwardCandidate cid u.createdAt m = true →
          m.createdAt ≤ r.createdAt) ∧
    ((∀ m ∈ db.messages, forwardCandidate cid u.createdAt m = false) →
      (∀ m ∈ db.messages, backwardCandidate cid u.createdAt m = false) →
      linkNearestMessage db u = none) := by
  have hlink : linkNearestMessage db u =
      match findFirstByCreatedAtAsc db.messages
          (forwardCandidate cid u.createdAt) with
      | some m => some m
      | none =>
        findFirstByCreatedAtDesc db.messages
          (backwardCandidate cid u.createdAt) := by
    unfold linkNearestMessage
    rw [hc]
  refine ⟨?_, ?_, ?_⟩
  · rintro ⟨m, hm, hpm⟩
    rcases hfw : findFirstByCreatedAtAsc db.messages
        (forwardCandidate cid u.createdAt) with _ | r
    · have := ((findFirstByCreatedAtAsc_spec db.messages
          (forwardCandidate cid u.createdAt)).1).mp hfw
      have : m ∈ db.messages.filter (forwardCandidate cid u.createdAt) :=
        List.mem_filter.mpr ⟨hm, hpm⟩
      simp_all
    · obtain ⟨hrm, hpr, hmin⟩ := (findFirstByCreatedAtAsc_spec db.messages
        (forwardCandidate cid u.createdAt)).2 r hfw
      exact ⟨r, by rw [hlink, hfw], hrm, hpr, hmin⟩
  · intro hno
    rintro ⟨m, hm, hpm⟩
    have hfw : findFirstByCreatedAtAsc db.messages
        (forwardCandidate cid u.createdAt) = none := by
      rw [(findFirstByCreatedAtAsc_spec db.messages _).1]
      rw [List.filter_eq_nil_iff]
      intro x hx
      simp [hno x hx]
    rcases hbw : findFirstByCreatedAtDesc db.messages
        (backwardCandidate cid u.createdAt) with _ | r
    · have := ((findFirstByCreatedAtDesc_spec db.messages
          (backwardCandidate cid u.createdAt)).1).mp hbw
      have : m ∈ db.messages.filter (backwardCandidate cid u.createdAt) :=
        List.mem_filter.mpr ⟨hm, hpm⟩
      simp_all
    · obtain ⟨hrm, hpr, hmax⟩ := (findFirstByCreatedAtDesc_spec db.messages
        (backwardCandidate cid u.createdAt)).2 r hbw
      refine ⟨r, ?_, hrm, hpr, hmax⟩
      rw [hlink, hfw, hbw]
  · intro hnof hnob
    have hfw : findFirstByCreatedAtAsc db.messages
        (forwardCandidate cid u.createdAt) = none := by
      rw [(findFirstByCreatedAtAsc_spec db.messages _).1]
      rw [List.filter_eq_nil_iff]
      intro x hx
      simp [hnof x hx]
    have hbw : findFirstByCreatedAtDesc db.messages
        (backwardCandidate cid u.createdAt) = none := by
      rw [(findFirstByCreatedAtDesc_spec db.messages _).1]
      rw [List.filter_eq_nil_iff]
      intro x hx
      simp [hnob x hx]
    rw [hlink, hfw, hbw]

/-- Witness for C7: with a user turn 5 s before and an assistant reply 5 s
after the upload, the linker picks the later assistant reply. -/
theorem linkNearestMessage_spec_witness :
    ∃ r, linkNearestMessage uploadDemoDb uploadDemo = some r ∧
      r ∈ uploadDemoDb.messages ∧
      forwardCandidate 1 uploadDemo.createdAt r = true ∧
      ∀ m ∈ uploadDemoDb.messages,
        forwardCandidate 1 uploadDemo.createdAt m = true →
          r.createdAt ≤ m.createdAt :=
  (linkNearestMessage_spec uploadDemoDb uploadDemo 1 rfl).1 (by decide)

/-- Two users of a unique-index table sharing an `externalId` are the same
row. -/
theorem uniqueExternalIds_ext_eq (users : List UserRow)
    (hinv : uniqueExternalIds users) (a b : UserRow) (ha : a ∈ users)
    (hb : b ∈ users) (he : a.externalId = b.externalId) : a = b := by
  unfold uniqueExternalIds at hinv
  induction users with
  | nil => exact absurd ha (by simp)
  | cons u t ih =>
    rcases List.pairwise_cons.mp hinv with ⟨hu, ht⟩
    rcases List.mem_cons.mp ha with rfl | ha' <;>
      rcases List.mem_cons.mp hb with rfl | hb'
    · rfl
    · exact absurd he (hu b hb')
    · exact absurd he.symm (hu a ha')
    · exact ih ht ha' hb'

/-- One `getOrCreateUser` call with a truthy `externalId` resolves a user:
it returns a row carrying that `externalId` with `lastSeenAt` set to the
clock, the row is in the resulting table, the unique index is preserved,
the returned id matches any existing row with that `externalId`, and no row
is added when one already existed. -/
theorem getOrCreateUser_resolves (db : Db) (externalId : List Char)
    (email : Option (List Char)) (now fid : Nat)
    (hne : externalId.isEmpty = false) (hinv : uniqueExternalIds db.users) :
    ∃ u1, (getOrCreateUser db externalId email now fid).1 = some u1 ∧
      u1 ∈ (getOrCreateUser db externalId email now fid).2.users ∧
      u1.externalId = externalId ∧
      u1.lastSeenAt = now ∧
      uniqueExternalIds (getOrCreateUser db externalId email now fid).2.users ∧
      (∀ v ∈ db.users, v.externalId = externalId → u1.id = v.id) ∧
      ((∃ v ∈ db.users, v.externalId = externalId) →
        (getOrCreateUser db externalId email now fid).2.users.length =
          db.users.length) := by
  unfold getOrCreateUser
  rw [hne]
  simp only [Bool.false_eq_true, if_false]
  cases hfind : db.users.find? (fun u => u.externalId == externalId) with
  | none =>
    have hnone := List.find?_eq_none.mp hfind
    refine ⟨_, rfl, ?_, rfl, rfl, ?_, ?_, ?_⟩
    · simp
    · unfold uniqueExternalIds at hinv ⊢
      simp only
      rw [List.pairwise_append]
      refine ⟨hinv, List.pairwise_singleton _ _, ?_⟩
      intro a ha b hb
      simp only [List.mem_singleton] at hb
      subst hb
      intro hc
      exact (hnone a ha) (by simp [hc])
    · intro v hv hve
      exact absurd (by simp [hve]) (hnone v hv)
    · rintro ⟨v, hv, hve⟩
      exact absurd (by simp [hve]) (hnone v hv)
  | some u =>
    have hu_mem : u ∈ db.users := List.mem_of_find?_eq_some hfind
    have hu_ext : u.externalId = externalId := by
      have := List.find?_some hfind
      simpa using this
    refine ⟨_, rfl, ?_, hu_ext, rfl, ?_, ?_, ?_⟩
    · simp only
      have : ∀ f : UserRow → UserRow, u ∈ db.users → f u ∈ db.users.map f :=
        fun f hm => List.mem_map_of_mem f hm
      have hres := List.mem_map_of_mem
        (fun v => if v.externalId == externalId then
          { u with
            lastSeenAt := now,
            email := match email with | some e => some e | none => u.email }
          else v) hu_mem
      simpa [hu_ext] using hres
    · unfold uniqueExternalIds at hinv ⊢
      simp only
      rw [List.pairwise_map]
      refine hinv.imp ?_
      intro a b hab hc
      apply hab
      by_cases ha : (a.externalId == externalId) = true <;>
        by_cases hb : (b.externalId == externalId) = true
      · simp only [beq_iff_eq] at ha hb
        rw [ha, hb]
      · exfalso
        have hb' : b.externalId ≠ externalId := by simpa using hb
        simp [ha, hb, hu_ext] at hc
        exact hb' hc.symm
      · exfalso
        have ha' : a.externalId ≠ externalId := by simpa using ha
        simp [ha, hb, hu_ext] at hc
        exact ha' hc
      · simp [ha, hb] at hc
        exact hc
    · intro v hv hve
      have : v = u := uniqueExternalIds_ext_eq db.users hinv v u hv hu_mem
        (hve.trans hu_ext.symm)
      rw [this]
    · intro _
      simp

/-- Claim C8: two `getOrCreateUser` calls with the same truthy `externalId`
resolve to the same internal user id, the second call adds no row, and the
last-seen timestamp strictly increases across the calls (the clock being
strictly later at the second call). -/
theorem getOrCreateUser_idempotent_identity (db : Db) (externalId : List Char)
    (email email2 : Option (List Char)) (t1 t2 fid fid2 : Nat)
    (hne : externalId.isEmpty = false)
    (hinv : uniqueExternalIds db.users)
    (ht : t1 < t2) :
    ∃ u1 u2,
      (getOrCreateUser db externalId email t1 fid).1 = some u1 ∧
      (getOrCreateUser (getOrCreateUser db externalId email t1 fid).2
        externalId email2 t2 fid2).1 = some u2 ∧
      u2.id = u1.id ∧
      u1.lastSeenAt = t1 ∧ u2.lastSeenAt = t2 ∧
      u1.lastSeenAt < u2.lastSeenAt ∧
      (getOrCreateUser (getOrCreateUser db externalId email t1 fid).2
        externalId email2 t2 fid2).2.users.length =
        (getOrCreateUser db externalId email t1 fid).2.users.length := by
  obtain ⟨u1, h1r, h1mem, h1ext, h1seen, h1inv, h1id, h1len⟩ :=
    getOrCreateUser_resolves db externalId email t1 fid hne hinv
  obtain ⟨u2, h2r, h2mem, h2ext, h2seen, h2inv, h2id, h2len⟩ :=
    getOrCreateUser_resolves (getOrCreateUser db externalId email t1 fid).2
      externalId email2 t2 fid2 hne h1inv
  refine ⟨u1, u2, h1r, h2r, h2id u1 h1mem h1ext, h1seen, h2seen, ?_, ?_⟩
  · omega
  · exact h2len ⟨u1, h1mem, h1ext⟩

/-- Witness for C8 starting from an empty store at times 5 and then 6. -/
theorem getOrCreateUser_idempotent_identity_witness :
    ∃ u1 u2,
      (getOrCreateUser emptyDb "guest:x".toList none 5 100).1 = some u1 ∧
      (getOrCreateUser (getOrCreateUser emptyDb "guest:x".toList none 5 100).2
        "guest:x".toList none 6 101).1 = some u2 ∧
      u2.id = u1.id ∧
      u1.lastSeenAt = 5 ∧ u2.lastSeenAt = 6 ∧
      u1.lastSeenAt < u2.lastSeenAt ∧
      (getOrCreateUser (getOrCreateUser emptyDb "guest:x".toList none 5 100).2
        "guest:x".toList none 6 101).2.users.length =
        (getOrCreateUser emptyDb "guest:x".toList none 5 100).2.users.length :=
  getOrCreateUser_idempotent_identity emptyDb "guest:x".toList none none
    5 6 100 101 (by decide) (by decide) (by decide)

end Exerbud
